import Mathlib

/-!
Shallow embedding of `dynamo/tools/estimation_kinetic.py` (dynamo-release).

Python floats are embedded as real numbers (`ℝ`); a float value that may be
NaN is embedded as `Option ℝ` with `none` standing for NaN.  NumPy arrays are
embedded as lists (matrices as lists of row lists).  The external
collaborators (scipy's `least_squares`, the ODE/moment simulators) are taken
as explicit function parameters, constrained only by their documented
contracts, exactly as the estimator code treats them.
-/

open List

/-- `np.log(X + 1)` applied to one scalar entry; the body of
`kinetic_estimation.normalize_data`. -/
noncomputable def log1p (x : ℝ) : ℝ := Real.log (x + 1)

/-- `np.clip(v, lo, hi)`: clamp `v` into `[lo, hi]` (for `lo ≤ hi`). -/
noncomputable def np_clip (v lo hi : ℝ) : ℝ := min (max v lo) hi

/-- Dot product of two flat vectors, `a.dot(b)`. -/
def dotList (a b : List ℝ) : ℝ := (List.zipWith (fun x y => x * y) a b).sum

/-- The state fixed at `kinetic_estimation.__init__`: the kinetic-parameter
ranges and the initial-condition ranges, each an ordered list of
`(low, high)` pairs (the n-by-2 numpy arrays of the source). -/
structure kinetic_estimation where
  param_ranges : List (ℝ × ℝ)
  x0_ranges : List (ℝ × ℝ)

namespace kinetic_estimation

/-- One pass of the `__init__` loop over a range list: a range with
`low == high` contributes its fixed value (`fixed_parameters[i] = low`),
any other range contributes the NaN sentinel (`none`). -/
noncomputable def mkFixed (rs : List (ℝ × ℝ)) : List (Option ℝ) :=
  rs.map (fun r => if r.1 = r.2 then some r.1 else none)

/-- The other half of the `__init__` loop: the ranges with `low ≠ high` are
retained, in order, as the free-parameter bound list (`self.ranges.append`). -/
noncomputable def freeRanges (rs : List (ℝ × ℝ)) : List (ℝ × ℝ) :=
  rs.filter (fun r => decide (¬ r.1 = r.2))

/-- `self.fixed_parameters`: NaN-initialised vector of length
`len(param_ranges) + len(x0_ranges)`, with the fixed slots filled by the two
`__init__` loops (kinetic parameters first, then initial conditions). -/
noncomputable def fixed_parameters (ke : kinetic_estimation) : List (Option ℝ) :=
  mkFixed (ke.param_ranges ++ ke.x0_ranges)

/-- `self.ranges`: free kinetic-parameter ranges followed by free
initial-condition ranges, in original order. -/
noncomputable def ranges (ke : kinetic_estimation) : List (ℝ × ℝ) :=
  freeRanges ke.param_ranges ++ freeRanges ke.x0_ranges

/-- `self.n_tot_kin_params`. -/
def n_tot_kin_params (ke : kinetic_estimation) : ℕ := ke.param_ranges.length

/-- `self.n_kin_params`: the number of unfixed kinetic parameters. -/
noncomputable def n_kin_params (ke : kinetic_estimation) : ℕ :=
  (freeRanges ke.param_ranges).length

/-- `self.n_params`: the number of unfixed parameters, initial conditions
included. -/
noncomputable def n_params (ke : kinetic_estimation) : ℕ := (ranges ke).length

/-- NumPy boolean-mask assignment `p[np.isnan(p)] = vs`: walk the vector,
keeping every non-NaN (`some`) entry and consuming the supplied values, in
order, at the NaN (`none`) slots.  (NumPy raises when `vs` runs short; the
junk branch below never fires when `vs` has one value per `none` slot, which
the theorems assume.) -/
def fillNans : List (Option ℝ) → List ℝ → List ℝ
  | [], _ => []
  | some v :: rest, vs => v :: fillNans rest vs
  | none :: rest, v :: vs => v :: fillNans rest vs
  | none :: rest, [] => 0 :: fillNans rest []

/-- `assemble_kin_params`: copy `fixed_parameters[:n_tot_kin_params]` and fill
its NaN slots, in order, from `unfixed_params[:n_kin_params]`. -/
noncomputable def assemble_kin_params (ke : kinetic_estimation) (unfixed_params : List ℝ) :
    List ℝ :=
  fillNans ((fixed_parameters ke).take ke.n_tot_kin_params)
    (unfixed_params.take ke.n_kin_params)

/-- `assemble_x0`: copy `fixed_parameters[n_tot_kin_params:]` and fill its NaN
slots, in order, from `unfixed_params[n_kin_params:]`. -/
noncomputable def assemble_x0 (ke : kinetic_estimation) (unfixed_params : List ℝ) :
    List ℝ :=
  fillNans ((fixed_parameters ke).drop ke.n_tot_kin_params)
    (unfixed_params.drop ke.n_kin_params)

/-- `get_bound(axis)`: the `axis` entry of every free range, in free-vector
order. -/
noncomputable def get_bound (ke : kinetic_estimation) (axis : ℕ) : List ℝ :=
  (ranges ke).map (fun r => if axis = 0 then r.1 else r.2)

end kinetic_estimation

namespace kinetic_estimation

lemma fixed_parameters_take (ke : kinetic_estimation) :
    (fixed_parameters ke).take ke.n_tot_kin_params = mkFixed ke.param_ranges := by
  have h : (mkFixed ke.param_ranges).length = ke.n_tot_kin_params := by
    simp [mkFixed, n_tot_kin_params]
  rw [fixed_parameters, mkFixed, List.map_append, ← mkFixed, ← mkFixed, ← h,
    List.take_left]

lemma fixed_parameters_drop (ke : kinetic_estimation) :
    (fixed_parameters ke).drop ke.n_tot_kin_params = mkFixed ke.x0_ranges := by
  have h : (mkFixed ke.param_ranges).length = ke.n_tot_kin_params := by
    simp [mkFixed, n_tot_kin_params]
  rw [fixed_parameters, mkFixed, List.map_append, ← mkFixed, ← mkFixed, ← h,
    List.drop_left]

/-- `fillNans` leaves every non-NaN (fixed) slot untouched, whatever values
are supplied for the free slots. -/
lemma fillNans_get?_some :
    ∀ (l : List (Option ℝ)) (vs : List ℝ) (i : ℕ) (v : ℝ),
      l[i]? = some (some v) → (fillNans l vs)[i]? = some v
  | [], _, i, v, h => by simp at h
  | some w :: rest, vs, 0, v, h => by
      simp at h; simp [fillNans, h]
  | some w :: rest, vs, i + 1, v, h => by
      simp at h
      simpa [fillNans] using fillNans_get?_some rest vs i v h
  | none :: rest, [], 0, v, h => by simp at h
  | none :: rest, w :: ws, 0, v, h => by simp at h
  | none :: rest, [], i + 1, v, h => by
      simp at h
      simpa [fillNans] using fillNans_get?_some rest [] i v h
  | none :: rest, w :: ws, i + 1, v, h => by
      simp at h
      simpa [fillNans] using fillNans_get?_some rest ws i v h

lemma mkFixed_get?_of_fixed (rs : List (ℝ × ℝ)) (i : ℕ) (r : ℝ × ℝ)
    (hr : rs[i]? = some r) (hfix : r.1 = r.2) :
    (mkFixed rs)[i]? = some (some r.1) := by
  simp [mkFixed, List.getElem?_map, hr, if_pos hfix]

end kinetic_estimation

open kinetic_estimation in
/-- C1: for every `kinetic_estimation` instance and every parameter range
declared with `low == high` (a fixed parameter), and for every free-parameter
vector the optimizer may supply, `assemble_kin_params` and `assemble_x0`
return a full vector whose entry at that fixed position equals exactly the
fixed value; the fixed/free partition depends only on the construction-time
ranges, never on the optimizer input. -/
theorem assemble_fixed_slots_exact (ke : kinetic_estimation) (unfixed : List ℝ)
    (i : ℕ) (r : ℝ × ℝ) (hfix : r.1 = r.2) :
    (ke.param_ranges[i]? = some r →
      (ke.assemble_kin_params unfixed)[i]? = some r.1) ∧
    (ke.x0_ranges[i]? = some r →
      (ke.assemble_x0 unfixed)[i]? = some r.1) := by
  constructor
  · intro hr
    rw [assemble_kin_params, fixed_parameters_take]
    exact fillNans_get?_some _ _ i r.1 (mkFixed_get?_of_fixed _ i r hr hfix)
  · intro hr
    rw [assemble_x0, fixed_parameters_drop]
    exact fillNans_get?_some _ _ i r.1 (mkFixed_get?_of_fixed _ i r hr hfix)

/-- Witness for C1 at a concrete instance: kinetic ranges `[(5,5), (0,2)]`,
initial-condition ranges `[(7,7)]`, optimizer input `[9, 9]`; the fixed slots
come back as `5` and `7`. -/
theorem assemble_fixed_slots_exact_witness :
    ((5 : ℝ), (5 : ℝ)).1 = ((5 : ℝ), (5 : ℝ)).2 ∧
    ((kinetic_estimation.mk [(5, 5), (0, 2)] [(7, 7)]).assemble_kin_params
        [9, 9])[0]? = some 5 := by
  refine ⟨rfl, ?_⟩
  exact (assemble_fixed_slots_exact (kinetic_estimation.mk [(5, 5), (0, 2)] [(7, 7)])
    [9, 9] 0 (5, 5) rfl).1 rfl


namespace kinetic_estimation

lemma mkFixed_cons_fixed (r : ℝ × ℝ) (rs : List (ℝ × ℝ)) (hfix : r.1 = r.2) :
    mkFixed (r :: rs) = some r.1 :: mkFixed rs := by
  simp [mkFixed, if_pos hfix]

lemma mkFixed_cons_free (r : ℝ × ℝ) (rs : List (ℝ × ℝ)) (hfix : ¬ r.1 = r.2) :
    mkFixed (r :: rs) = none :: mkFixed rs := by
  simp [mkFixed, if_neg hfix]

lemma freeRanges_cons_fixed (r : ℝ × ℝ) (rs : List (ℝ × ℝ)) (hfix : r.1 = r.2) :
    freeRanges (r :: rs) = freeRanges rs := by
  simp [freeRanges, hfix]

lemma freeRanges_cons_free (r : ℝ × ℝ) (rs : List (ℝ × ℝ)) (hfix : ¬ r.1 = r.2) :
    freeRanges (r :: rs) = r :: freeRanges rs := by
  simp [freeRanges, hfix]

/-- Filling the NaN slots with the per-slot lower bounds is pointwise below
(and with the upper bounds pointwise above) filling them with any values that
respect the free-range bounds. -/
lemma fillNans_bound_mono :
    ∀ (rs : List (ℝ × ℝ)) (vs : List ℝ),
      List.Forall₂ (fun r v => r.1 ≤ v ∧ v ≤ r.2) (freeRanges rs) vs →
      List.Forall₂ (fun a b => a ≤ b)
          (fillNans (mkFixed rs) ((freeRanges rs).map (fun r => r.1)))
          (fillNans (mkFixed rs) vs) ∧
      List.Forall₂ (fun a b => a ≤ b)
          (fillNans (mkFixed rs) vs)
          (fillNans (mkFixed rs) ((freeRanges rs).map (fun r => r.2)))
  | [], vs, h => by
      simp [freeRanges] at h
      simp [mkFixed, freeRanges, fillNans, h]
  | r :: rs, vs, h => by
      by_cases hfix : r.1 = r.2
      · rw [freeRanges_cons_fixed r rs hfix] at h ⊢
        rw [mkFixed_cons_fixed r rs hfix]
        have ih := fillNans_bound_mono rs vs h
        exact ⟨List.Forall₂.cons (le_refl r.1) ih.1,
          List.Forall₂.cons (le_refl r.1) ih.2⟩
      · rw [freeRanges_cons_free r rs hfix] at h ⊢
        rw [mkFixed_cons_free r rs hfix]
        cases h with
        | cons hrv htail =>
          rename_i v vs'
          have ih := fillNans_bound_mono rs vs' htail
          exact ⟨List.Forall₂.cons hrv.1 ih.1, List.Forall₂.cons hrv.2 ih.2⟩

lemma get_bound_take (ke : kinetic_estimation) (axis : ℕ) :
    (ke.get_bound axis).take ke.n_kin_params =
      (freeRanges ke.param_ranges).map (fun r => if axis = 0 then r.1 else r.2) := by
  have h : ((freeRanges ke.param_ranges).map
      (fun r => if axis = 0 then r.1 else r.2)).length = ke.n_kin_params := by
    simp [n_kin_params]
  rw [get_bound, ranges, List.map_append, ← h, List.take_left]

lemma ranges_take (ke : kinetic_estimation) :
    (ranges ke).take ke.n_kin_params = freeRanges ke.param_ranges := by
  have h : (freeRanges ke.param_ranges).length = ke.n_kin_params := rfl
  rw [ranges, ← h, List.take_left]

end kinetic_estimation

open kinetic_estimation in
/-- C9 counterexample: with one free kinetic range `(0, 1)` and the in-bounds
free vector `[1]`, `assemble_kin_params (get_bound 0)` is `[0]` and
`assemble_kin_params [1]` is `[1]`, so the assembled lower-bound vector is
not pointwise ≥ the assembled sample, refuting the claim as stated. -/
theorem assemble_get_bound_not_ge :
    (List.Forall₂ (fun (r : ℝ × ℝ) (x : ℝ) => r.1 ≤ x ∧ x ≤ r.2)
        ((kinetic_estimation.mk [(0, 1)] []).ranges) [1]) ∧
    ¬ List.Forall₂ (fun (a b : ℝ) => a ≥ b)
        ((kinetic_estimation.mk [(0, 1)] []).assemble_kin_params
          ((kinetic_estimation.mk [(0, 1)] []).get_bound 0))
        ((kinetic_estimation.mk [(0, 1)] []).assemble_kin_params [1]) := by
  have h01 : ((0 : ℝ), (1 : ℝ)).1 ≠ ((0 : ℝ), (1 : ℝ)).2 := by norm_num
  have hfree : freeRanges [((0 : ℝ), (1 : ℝ))] = [(0, 1)] := by
    rw [freeRanges_cons_free _ _ h01]; rfl
  have hranges : (kinetic_estimation.mk [(0, 1)] []).ranges = [((0 : ℝ), (1 : ℝ))] := by
    rw [kinetic_estimation.ranges]
    show freeRanges [((0 : ℝ), (1 : ℝ))] ++ freeRanges [] = _
    rw [hfree]; rfl
  have hmk : mkFixed [((0 : ℝ), (1 : ℝ))] = [none] := by
    rw [mkFixed_cons_free _ _ h01]; rfl
  have hn : (kinetic_estimation.mk [(0, 1)] []).n_kin_params = 1 := by
    rw [n_kin_params]
    show (freeRanges [((0 : ℝ), (1 : ℝ))]).length = 1
    rw [hfree]
    rfl
  have hlow : (kinetic_estimation.mk [(0, 1)] []).assemble_kin_params
      ((kinetic_estimation.mk [(0, 1)] []).get_bound 0) = [0] := by
    rw [assemble_kin_params, fixed_parameters_take, hmk, get_bound, hranges, hn]
    simp [fillNans]
  have hhigh : (kinetic_estimation.mk [(0, 1)] []).assemble_kin_params [1] = [1] := by
    rw [assemble_kin_params, fixed_parameters_take, hmk, hn]
    simp [fillNans]
  constructor
  · rw [hranges]
    exact List.Forall₂.cons (by norm_num) List.Forall₂.nil
  · rw [hlow, hhigh]
    intro hcon
    cases hcon with
    | cons hc _ => exact absurd hc (by norm_num)

open kinetic_estimation in
/-- C9 amended: for every instance and every free-parameter vector `v` lying
coordinatewise inside its declared bound interval, the assembled vector from
`get_bound 0` is pointwise ≤ the assembled vector from `v`, and the assembled
vector from `get_bound 1` is pointwise ≥ it. -/
theorem assemble_get_bound_pointwise (ke : kinetic_estimation) (v : List ℝ)
    (hv : List.Forall₂ (fun r x => r.1 ≤ x ∧ x ≤ r.2) (ke.ranges) v) :
    List.Forall₂ (fun a b => a ≤ b)
        (ke.assemble_kin_params (ke.get_bound 0)) (ke.assemble_kin_params v) ∧
    List.Forall₂ (fun a b => a ≤ b)
        (ke.assemble_kin_params v) (ke.assemble_kin_params (ke.get_bound 1)) := by
  have hvk : List.Forall₂ (fun r x => r.1 ≤ x ∧ x ≤ r.2)
      (freeRanges ke.param_ranges) (v.take ke.n_kin_params) := by
    have h := List.forall₂_take ke.n_kin_params hv
    rwa [ranges_take] at h
  have hmono := fillNans_bound_mono ke.param_ranges (v.take ke.n_kin_params) hvk
  constructor
  · have h0 := hmono.1
    rw [assemble_kin_params, assemble_kin_params, fixed_parameters_take,
      get_bound_take]
    simpa using h0
  · have h1 := hmono.2
    rw [assemble_kin_params, assemble_kin_params, fixed_parameters_take,
      get_bound_take]
    simpa using h1

open kinetic_estimation in
/-- Witness for the amended C9 at a concrete instance: kinetic ranges
`[(1,1), (0,2)]`, initial-condition range `[(0,3)]`, free vector `[1, 2]`. -/
theorem assemble_get_bound_pointwise_witness :
    (List.Forall₂ (fun (r : ℝ × ℝ) (x : ℝ) => r.1 ≤ x ∧ x ≤ r.2)
        ((kinetic_estimation.mk [(1, 1), (0, 2)] [(0, 3)]).ranges) [1, 2]) ∧
    (List.Forall₂ (fun (a b : ℝ) => a ≤ b)
        ((kinetic_estimation.mk [(1, 1), (0, 2)] [(0, 3)]).assemble_kin_params
          ((kinetic_estimation.mk [(1, 1), (0, 2)] [(0, 3)]).get_bound 0))
        ((kinetic_estimation.mk [(1, 1), (0, 2)] [(0, 3)]).assemble_kin_params [1, 2])) := by
  have hranges : (kinetic_estimation.mk [(1, 1), (0, 2)] [(0, 3)]).ranges
      = [((0 : ℝ), (2 : ℝ)), ((0 : ℝ), (3 : ℝ))] := by
    rw [kinetic_estimation.ranges]
    show freeRanges [((1 : ℝ), (1 : ℝ)), (0, 2)] ++ freeRanges [((0 : ℝ), (3 : ℝ))] = _
    rw [freeRanges_cons_fixed _ _ (by norm_num), freeRanges_cons_free _ _ (by norm_num),
      freeRanges_cons_free _ _ (by norm_num)]
    rfl
  have hv : List.Forall₂ (fun (r : ℝ × ℝ) (x : ℝ) => r.1 ≤ x ∧ x ≤ r.2)
      ((kinetic_estimation.mk [(1, 1), (0, 2)] [(0, 3)]).ranges) [1, 2] := by
    rw [hranges]
    exact List.Forall₂.cons (by norm_num)
      (List.Forall₂.cons (by norm_num) List.Forall₂.nil)
  exact ⟨hv, (assemble_get_bound_pointwise _ [1, 2] hv).1⟩

/-- `guestimate_gamma(x_data, time)`:
`np.clip(np.log(x_data[0] / (x_data[-1] + 1e-6)) / time[-1], 1e-3, 1e3)`. -/
noncomputable def guestimate_gamma (x_data time : List ℝ) : ℝ :=
  np_clip (Real.log (x_data.headD 0 / (x_data.getLast?.getD 0 + 1e-6))
    / time.getLast?.getD 0) 1e-3 1e3

/-- C6: `guestimate_gamma(x, t)` equals
`clip(ln(x[0] / (x[-1] + 1e-6)) / t[-1], 1e-3, 1e3)` and therefore always lies
in the interval `[1e-3, 1e3]` (in exact real arithmetic this needs no
finiteness or positivity side conditions at all). -/
theorem guestimate_gamma_in_range (x t : List ℝ) :
    guestimate_gamma x t =
      np_clip (Real.log (x.headD 0 / (x.getLast?.getD 0 + 1e-6))
        / t.getLast?.getD 0) 1e-3 1e3 ∧
    1e-3 ≤ guestimate_gamma x t ∧ guestimate_gamma x t ≤ 1e3 := by
  refine ⟨rfl, ?_, ?_⟩
  · rw [guestimate_gamma, np_clip]
    exact le_min (le_max_right _ _) (by norm_num)
  · rw [guestimate_gamma, np_clip]
    exact min_le_right _ _

namespace Estimation_Degradation

/-- `self.kin_param_keys` as set in `Estimation_Degradation.__init__`. -/
def kin_param_keys : List String := ["alpha", "gamma"]

/-- `Estimation_Degradation.__init__` prepends the always-fixed alpha range
`np.zeros(2)` to the caller's ranges before handing them to
`kinetic_estimation.__init__` (`np.vstack((np.zeros(2), ranges))`). -/
def deg_param_ranges (ranges : List (ℝ × ℝ)) : List (ℝ × ℝ) := (0, 0) :: ranges

/-- `get_param(key)`: `self.popt[np.where(self.kin_param_keys == key)[0][0]]`,
i.e. the stored free-parameter vector indexed at the first position of `key`
inside the full key list. -/
def get_param (keys : List String) (popt : List ℝ) (key : String) : ℝ :=
  popt.getD (keys.indexOf key) 0

/-- `calc_half_life(key)`: `np.log(2) / self.get_param(key)`. -/
noncomputable def calc_half_life (keys : List String) (popt : List ℝ) (key : String) : ℝ :=
  Real.log 2 / get_param keys popt key

end Estimation_Degradation

open kinetic_estimation Estimation_Degradation in
/-- C2 failing input: an `Estimation_DeterministicDegNosp` fit with free gamma
range `(0, 10)`, free initial-condition range `(0, 100)` and fitted free
vector `popt = [1/2, 20]` (gamma `1/2`, initial condition `20`).  The fitted
gamma, read off the assembled kinetic vector at the position of `'gamma'`, is
`1/2`; but `get_param('gamma')` indexes `popt` — which omits the always-fixed
alpha — at the full-key-list position `1`, so `calc_half_life('gamma')`
returns `ln 2 / 20`, the log of two divided by the fitted initial condition,
not `ln 2` divided by the fitted gamma. -/
theorem calc_half_life_gamma_misindexed :
    calc_half_life kin_param_keys [1/2, 20] "gamma" = Real.log 2 / 20 ∧
    ((kinetic_estimation.mk (deg_param_ranges [(0, 10)]) [(0, 100)]).assemble_kin_params
        [1/2, 20])[1]? = some (1/2) ∧
    Real.log 2 / 20 ≠ Real.log 2 / (1/2) := by
  refine ⟨?_, ?_, ?_⟩
  · rw [calc_half_life, get_param]
    have hidx : kin_param_keys.indexOf "gamma" = 1 := by decide
    rw [hidx]
    norm_num
  · have hzero : ((0 : ℝ), (0 : ℝ)).1 = ((0 : ℝ), (0 : ℝ)).2 := rfl
    have hten : ¬ ((0 : ℝ), (10 : ℝ)).1 = ((0 : ℝ), (10 : ℝ)).2 := by norm_num
    have hmk : mkFixed (deg_param_ranges [(0, 10)]) = [some 0, none] := by
      rw [deg_param_ranges, mkFixed_cons_fixed _ _ hzero, mkFixed_cons_free _ _ hten]
      rfl
    have hn : (kinetic_estimation.mk (deg_param_ranges [(0, 10)]) [(0, 100)]).n_kin_params
        = 1 := by
      rw [n_kin_params]
      show (freeRanges (deg_param_ranges [(0, 10)])).length = 1
      rw [deg_param_ranges, freeRanges_cons_fixed _ _ hzero,
        freeRanges_cons_free _ _ hten]
      rfl
    rw [assemble_kin_params, fixed_parameters_take, hmk, hn]
    simp [fillNans]
  · have hl : 0 < Real.log 2 := Real.log_pos (by norm_num)
    intro h
    rw [div_eq_div_iff (by norm_num) (by norm_num)] at h
    nlinarith

namespace Estimation_MomentKinNosp

/-- Python attribute lookup on a plain numeric value: a float carries no such
attribute, so the lookup raises `AttributeError`; embedded as `Except`. -/
def floatGetattr (_x : ℝ) (attr : String) : Except String ℝ :=
  Except.error ("AttributeError: float object has no attribute " ++ attr)

/-- Python list indexing `self.popt[i]`: in range yields the entry,
out of range raises `IndexError`; embedded as `Except`. -/
def pyIndex (popt : List ℝ) (i : ℕ) : Except String ℝ :=
  match popt[i]? with
  | some v => Except.ok v
  | none => Except.error "IndexError: index out of range"

/-- `get_alpha_a`: `self.popt[2]` (raising `IndexError` when the stored free
vector has fewer than three entries, as when `a`, `b` and `gamma` were passed
as scalars and thereby fixed). -/
def get_alpha_a (popt : List ℝ) : Except String ℝ := pyIndex popt 2

/-- `get_alpha` as written in the source:
`self.simulator.fbar(self.get_alpha_a(). self.get_alpha_i())` parses as the
attribute chain `((self.get_alpha_a()).self).get_alpha_i()` — a period where
a comma was intended — so once `get_alpha_a` has produced its numeric value,
that value undergoes an attribute lookup `.self` before `fbar` (the
simulator's external switching average, passed as a parameter) is ever
invoked; an `IndexError` from `get_alpha_a` itself propagates first. -/
def get_alpha (fbar : ℝ → ℝ) (popt : List ℝ) : Except String ℝ :=
  match get_alpha_a popt with
  | Except.error e => Except.error e
  | Except.ok a =>
    match floatGetattr a "self" with
    | Except.error e => Except.error e
    | Except.ok v =>
      match floatGetattr v "get_alpha_i" with
      | Except.error e => Except.error e
      | Except.ok w => Except.ok (fbar w)

end Estimation_MomentKinNosp

open Estimation_MomentKinNosp in
/-- C10 counterexample: an `Estimation_MomentKinNosp` instance whose stored
fit result `popt = [3, 4]` has only two free entries (as when `a`, `b` and
`gamma` are scalar-fixed and every initial-condition range is the fixed
`np.zeros((5,2))`): `get_alpha` raises `IndexError` from `self.popt[2]`
before the `.self` attribute access is reached, not `AttributeError`,
refuting the claim as universally stated. -/
theorem get_alpha_short_popt_index_error :
    get_alpha (fun x => x) [3, 4] = Except.error "IndexError: index out of range" ∧
    get_alpha (fun x => x) [3, 4] ≠
      Except.error "AttributeError: float object has no attribute self" := by
  refine ⟨rfl, ?_⟩
  intro h
  rw [show get_alpha (fun x => x) [(3 : ℝ), 4] =
      Except.error "IndexError: index out of range" from rfl] at h
  injection h with hs
  exact absurd hs (by decide)

open Estimation_MomentKinNosp in
/-- C10 amended: for every simulator `fbar` and every stored fit result
`popt` with at least three entries (index 2 in range), `get_alpha` raises
`AttributeError` (the attribute lookup `.self` on the numeric value of
`get_alpha_a`) and never returns a value. -/
theorem get_alpha_attribute_error_of_long_popt (fbar : ℝ → ℝ) (popt : List ℝ)
    (h : 2 < popt.length) :
    get_alpha fbar popt =
      Except.error "AttributeError: float object has no attribute self" := by
  rw [get_alpha, get_alpha_a, pyIndex, List.getElem?_eq_getElem h]
  rfl

open Estimation_MomentKinNosp in
/-- Witness for the amended C10 at the concrete stored fit result
`[1, 2, 3, 4, 5]` (all five kinetic parameters free). -/
theorem get_alpha_attribute_error_witness :
    2 < [(1 : ℝ), 2, 3, 4, 5].length ∧
    get_alpha (fun x => x) [(1 : ℝ), 2, 3, 4, 5] =
      Except.error "AttributeError: float object has no attribute self" :=
  ⟨by norm_num,
    get_alpha_attribute_error_of_long_popt (fun x => x) [(1 : ℝ), 2, 3, 4, 5]
      (by norm_num)⟩

namespace GoodnessOfFit

/-- `sig[sig == 0] = 1` applied to a copy of the stored stratified standard
deviations: every entry equal to zero breaks down to `1`, the others are kept.
The state arrays (`self.sigm`, `self.pred`, `self.mean`) are represented
flattened, since the formulas below only ever use them through `flatten`,
`np.prod` and `np.sum` over all entries. -/
noncomputable def subst_sigma (sigm : List ℝ) : List ℝ :=
  sigm.map (fun s => if s = 0 then 1 else s)

open Classical in
/-- The diagnostic channel of either likelihood routine: the source calls
`warnings.warn(...)` exactly when `np.any(sig == 0)`. -/
noncomputable def sigma_warnings (sigm : List ℝ) : List String :=
  if ∃ s ∈ sigm, s = 0 then ["Some standard deviations are 0; Set to 1 instead."]
  else []

/-- `err = ((self.pred - self.mean) / sig).flatten()` with the substituted
sigma. -/
noncomputable def err_vec (sigm pred mean : List ℝ) : List ℝ :=
  List.zipWith3 (fun p m s => (p - m) / s) pred mean (subst_sigma sigm)

/-- `calc_gaussian_likelihood`: pair of the emitted warnings and
`1/(np.sqrt((2*np.pi)**len(err)) * np.prod(sig)) * np.exp(-0.5 * err.dot(err))`. -/
noncomputable def calc_gaussian_likelihood (sigm pred mean : List ℝ) :
    List String × ℝ :=
  (sigma_warnings sigm,
    1 / (Real.sqrt ((2 * Real.pi) ^ (err_vec sigm pred mean).length)
        * (subst_sigma sigm).prod)
      * Real.exp (-(1 / 2) * dotList (err_vec sigm pred mean) (err_vec sigm pred mean)))

/-- `calc_gaussian_loglikelihood`: pair of the emitted warnings and
`-len(err)/2 * np.log(2*np.pi) - np.sum(np.log(sig)) - 0.5 * err.dot(err)`. -/
noncomputable def calc_gaussian_loglikelihood (sigm pred mean : List ℝ) :
    List String × ℝ :=
  (sigma_warnings sigm,
    -((err_vec sigm pred mean).length : ℝ) / 2 * Real.log (2 * Real.pi)
      - ((subst_sigma sigm).map Real.log).sum
      - 1 / 2 * dotList (err_vec sigm pred mean) (err_vec sigm pred mean))

lemma subst_sigma_pos (sigm : List ℝ) (h : ∀ s ∈ sigm, 0 ≤ s) :
    ∀ s ∈ subst_sigma sigm, 0 < s := by
  intro s hs
  rw [subst_sigma] at hs
  obtain ⟨a, ha, rfl⟩ := List.mem_map.mp hs
  by_cases h0 : a = 0
  · simp [h0]
  · simpa [h0] using lt_of_le_of_ne (h a ha) (Ne.symm h0)

lemma list_prod_ne_zero (l : List ℝ) (h : ∀ a ∈ l, a ≠ 0) : l.prod ≠ 0 := by
  induction l with
  | nil => simp
  | cons a t ih =>
    rw [List.prod_cons]
    exact mul_ne_zero (h a (by simp)) (ih (fun b hb => h b (by simp [hb])))

lemma log_list_prod (l : List ℝ) (h : ∀ a ∈ l, a ≠ 0) :
    Real.log l.prod = (l.map Real.log).sum := by
  induction l with
  | nil => simp
  | cons a t ih =>
    have ha : a ≠ 0 := h a (by simp)
    have ht : ∀ b ∈ t, b ≠ 0 := fun b hb => h b (by simp [hb])
    rw [List.prod_cons, List.map_cons, List.sum_cons,
      Real.log_mul ha (list_prod_ne_zero t ht), ih ht]

end GoodnessOfFit

open GoodnessOfFit in
/-- C5: whenever the stored stratified standard deviations are nonnegative
(as standard deviations are), the value returned by
`calc_gaussian_loglikelihood` equals the natural logarithm of the value
returned by `calc_gaussian_likelihood`, as an exact identity of real
arithmetic. -/
theorem loglikelihood_eq_log_likelihood (sigm pred mean : List ℝ)
    (h : ∀ s ∈ sigm, 0 ≤ s) :
    (calc_gaussian_loglikelihood sigm pred mean).2 =
      Real.log (calc_gaussian_likelihood sigm pred mean).2 := by
  have hpos := subst_sigma_pos sigm h
  have hP : 0 < (subst_sigma sigm).prod := List.prod_pos hpos
  set n := (err_vec sigm pred mean).length with hn
  set Q := dotList (err_vec sigm pred mean) (err_vec sigm pred mean) with hQ
  have hB : (0 : ℝ) < (2 * Real.pi) ^ n := pow_pos Real.two_pi_pos n
  have hsq : (0 : ℝ) < Real.sqrt ((2 * Real.pi) ^ n) := Real.sqrt_pos.mpr hB
  have hA : Real.sqrt ((2 * Real.pi) ^ n) * (subst_sigma sigm).prod ≠ 0 :=
    ne_of_gt (mul_pos hsq hP)
  rw [calc_gaussian_loglikelihood, calc_gaussian_likelihood]
  simp only [← hn, ← hQ]
  rw [one_div (Real.sqrt ((2 * Real.pi) ^ n) * (subst_sigma sigm).prod),
    Real.log_mul (inv_ne_zero hA) (Real.exp_ne_zero _), Real.log_inv,
    Real.log_exp, Real.log_mul (ne_of_gt hsq) (ne_of_gt hP),
    Real.log_sqrt (le_of_lt hB), Real.log_pow,
    log_list_prod _ (fun a hb => ne_of_gt (hpos a hb))]
  ring

open GoodnessOfFit in
/-- Witness for C5: standard deviations `[1, 2]`, predictions `[1, 3]`,
means `[0, 1]`. -/
theorem loglikelihood_eq_log_likelihood_witness :
    (∀ s ∈ [(1 : ℝ), 2], 0 ≤ s) ∧
    (calc_gaussian_loglikelihood [1, 2] [1, 3] [0, 1]).2 =
      Real.log (calc_gaussian_likelihood [1, 2] [1, 3] [0, 1]).2 :=
  ⟨by norm_num, loglikelihood_eq_log_likelihood [1, 2] [1, 3] [0, 1] (by norm_num)⟩

namespace GoodnessOfFit

lemma subst_sigma_idem (sigm : List ℝ) :
    subst_sigma (subst_sigma sigm) = subst_sigma sigm := by
  simp only [subst_sigma, List.map_map]
  refine List.map_congr_left ?_
  intro a _
  by_cases h0 : a = 0 <;> simp [Function.comp, h0]

end GoodnessOfFit

open GoodnessOfFit in
/-- C8: if some entry of the stored stratified standard deviation is exactly
zero, both likelihood routines emit the diagnostic warning, every effective
sigma used in the computation is nonzero (so no division-by-zero fault can
occur), and each returned value coincides with the value computed from the
sigma vector whose zero entries were replaced by `1`. -/
theorem sigma_zero_warns_and_substitutes (sigm pred mean : List ℝ)
    (h : ∃ s ∈ sigm, s = 0) :
    (calc_gaussian_likelihood sigm pred mean).1 =
      ["Some standard deviations are 0; Set to 1 instead."] ∧
    (calc_gaussian_loglikelihood sigm pred mean).1 =
      ["Some standard deviations are 0; Set to 1 instead."] ∧
    (∀ s ∈ subst_sigma sigm, s ≠ 0) ∧
    (calc_gaussian_likelihood sigm pred mean).2 =
      (calc_gaussian_likelihood (subst_sigma sigm) pred mean).2 ∧
    (calc_gaussian_loglikelihood sigm pred mean).2 =
      (calc_gaussian_loglikelihood (subst_sigma sigm) pred mean).2 := by
  refine ⟨?_, ?_, ?_, ?_, ?_⟩
  · rw [calc_gaussian_likelihood]
    simp only [sigma_warnings, if_pos h]
  · rw [calc_gaussian_loglikelihood]
    simp only [sigma_warnings, if_pos h]
  · intro s hs
    rw [subst_sigma] at hs
    obtain ⟨a, _, rfl⟩ := List.mem_map.mp hs
    by_cases h0 : a = 0 <;> simp [h0]
  · rw [calc_gaussian_likelihood, calc_gaussian_likelihood]
    simp only [err_vec, subst_sigma_idem]
  · rw [calc_gaussian_loglikelihood, calc_gaussian_loglikelihood]
    simp only [err_vec, subst_sigma_idem]

open GoodnessOfFit in
/-- Witness for C8: standard deviations `[0, 2]` (one exact zero),
predictions `[1, 3]`, means `[0, 1]`. -/
theorem sigma_zero_warns_and_substitutes_witness :
    (∃ s ∈ [(0 : ℝ), 2], s = 0) ∧
    (calc_gaussian_likelihood [0, 2] [1, 3] [0, 1]).1 =
      ["Some standard deviations are 0; Set to 1 instead."] :=
  ⟨⟨0, by simp⟩,
    (sigma_zero_warns_and_substitutes [0, 2] [1, 3] [0, 1] ⟨0, by simp⟩).1⟩

namespace kinetic_estimation

/-- `normalize_data(X) = np.log(X + 1)`, elementwise over a plain matrix. -/
noncomputable def normalize_data (X : List (List ℝ)) : List (List ℝ) :=
  X.map (List.map log1p)

/-- `normalize_data` applied to the simulator trajectory, whose entries may be
NaN (`none`): NumPy propagates NaN through `np.log`, so the transform maps
under the option. -/
noncomputable def normalize_data_nan (X : List (List (Option ℝ))) :
    List (List (Option ℝ)) :=
  X.map (List.map (Option.map log1p))

/-- `ret[np.isnan(ret)] = 0`: every NaN entry of the (possibly normalized)
trajectory is replaced by zero. -/
def nan_to_zero (X : List (List (Option ℝ))) : List (List ℝ) :=
  X.map (List.map (fun o => o.getD 0))

/-- `(ret - x_data).flatten()`: elementwise difference, flattened row-major. -/
def sub_flatten (A B : List (List ℝ)) : List ℝ :=
  (List.zipWith (fun r d => List.zipWith (fun a b => a - b) r d) A B).flatten

/-- `f_lsq(params, t, x_data, method, normalize)`, with the simulator steps
(`set_params`, `assemble_x0`, `integrate`, `extract_data_from_simulator`)
abstracted into the trajectory `sim_out` the simulator produced for the
assembled parameters: normalize if requested, zero the NaNs, subtract the
data and flatten. -/
noncomputable def f_lsq (sim_out : List (List (Option ℝ)))
    (x_data : List (List ℝ)) (normalize : Bool) : List ℝ :=
  sub_flatten
    (nan_to_zero (if normalize then normalize_data_nan sim_out else sim_out))
    x_data

/-- The data actually fitted against in `fit_lsq`:
`x_data_norm = self.normalize_data(x_data) if normalize else x_data`. -/
noncomputable def fit_lsq_x_data_norm (x_data : List (List ℝ)) (normalize : Bool) :
    List (List ℝ) :=
  if normalize then normalize_data x_data else x_data

end kinetic_estimation

open kinetic_estimation in
/-- C4: with `normalize` true, `f_lsq` returns the flattened elementwise
difference between the simulated trajectory transformed by `log(x+1)` — every
NaN entry then replaced by zero — and the data; and the target data in
`fit_lsq` undergoes the identical `log(x+1)` transform before fitting. -/
theorem f_lsq_normalized_residual (sim_out : List (List (Option ℝ)))
    (x_data : List (List ℝ)) :
    f_lsq sim_out x_data true =
      (List.zipWith
        (fun row drow => List.zipWith
          (fun o d => (Option.map (fun x => Real.log (x + 1)) o).getD 0 - d)
          row drow)
        sim_out x_data).flatten ∧
    fit_lsq_x_data_norm x_data true =
      x_data.map (List.map (fun x => Real.log (x + 1))) := by
  constructor
  · rw [f_lsq, if_pos rfl]
    induction sim_out generalizing x_data with
    | nil => simp [sub_flatten, nan_to_zero, normalize_data_nan]
    | cons r rs ih =>
      cases x_data with
      | nil => simp [sub_flatten, nan_to_zero, normalize_data_nan]
      | cons d ds =>
        have ihd := ih ds
        simp only [sub_flatten, nan_to_zero, normalize_data_nan, List.map_cons,
          List.zipWith_cons_cons, List.flatten_cons] at ihd ⊢
        rw [ihd]
        congr 1
        rw [List.map_map, List.zipWith_map_left]
        simp only [Function.comp]
        rw [show log1p = fun x : ℝ => Real.log (x + 1) from funext (fun _ => rfl)]
  · rw [fit_lsq_x_data_norm, if_pos rfl, normalize_data]
    simp [log1p]

namespace kinetic_estimation

/-- `np.max(m, 1)`: per-row maximum (rows nonempty in every use). -/
noncomputable def npmax_rows (m : List (List ℝ)) : List ℝ :=
  m.map (fun r => r.foldl max (r.headD 0))

/-- `(m.T / scale).T`: divide row `i` by `scale[i]`. -/
noncomputable def div_rows (m : List (List ℝ)) (scale : List ℝ) : List (List ℝ) :=
  List.zipWith (fun r s => r.map (fun x => x / s)) m scale

/-- `np.sum((x_data_norm - x_model_norm)**2 / x_model_norm)`: the Pearson
statistic summed over all matching entries. -/
noncomputable def pearson_stat (x_data_norm x_model_norm : List (List ℝ)) : ℝ :=
  ((List.zipWith
      (fun ro re => List.zipWith (fun o e => (o - e) ^ 2 / e) ro re)
      x_data_norm x_model_norm).map List.sum).sum

/-- `x_model[species]` row selection. -/
def select_species (x_model : List (List ℝ)) : Option (List ℕ) → List (List ℝ)
  | none => x_model
  | some s => s.map (fun i => x_model.getD i [])

/-- `test_chi2(t, x_data, species, method, normalize)`.  The re-integration
`self.simulator.integrate(t, method=method); x_model = self.simulator.x.T` is
abstracted into the matrix `x_model` (the trajectory at the current
parameters), and scipy's `chi2.cdf` into the function argument `cdf`. -/
noncomputable def test_chi2 (ke : kinetic_estimation) (cdf : ℝ → ℤ → ℝ)
    (t : List ℝ) (x_data x_model : List (List ℝ)) (species : Option (List ℕ))
    (normalize : Bool) : ℝ × ℝ × ℤ :=
  (1 - cdf
      (pearson_stat
        (if normalize then div_rows x_data (npmax_rows x_data) else x_data)
        (if normalize then div_rows (select_species x_model species) (npmax_rows x_data)
         else select_species x_model species))
      ((t.dedup.length : ℤ) - (ke.n_params : ℤ) - 1),
    pearson_stat
      (if normalize then div_rows x_data (npmax_rows x_data) else x_data)
      (if normalize then div_rows (select_species x_model species) (npmax_rows x_data)
       else select_species x_model species),
    (t.dedup.length : ℤ) - (ke.n_params : ℤ) - 1)

end kinetic_estimation

open kinetic_estimation in
/-- C3: `test_chi2` returns a triple `(p, c2, df)` where `c2` is the Pearson
sum Σ (observed − expected)² / expected over the (optionally
per-row-max-of-data rescaled) data and model prediction, `df` is the number
of distinct values in `t` minus the number of free parameters minus one, and
`p` is `1 − CDF(c2; df)` for the chi-square CDF. -/
theorem test_chi2_components (ke : kinetic_estimation) (cdf : ℝ → ℤ → ℝ)
    (t : List ℝ) (x_data x_model : List (List ℝ)) (species : Option (List ℕ))
    (normalize : Bool) :
    (test_chi2 ke cdf t x_data x_model species normalize).2.1 =
      pearson_stat
        (if normalize then div_rows x_data (npmax_rows x_data) else x_data)
        (if normalize then div_rows (select_species x_model species) (npmax_rows x_data)
         else select_species x_model species) ∧
    (test_chi2 ke cdf t x_data x_model species normalize).2.2 =
      (t.toFinset.card : ℤ) - ((ranges ke).length : ℤ) - 1 ∧
    (test_chi2 ke cdf t x_data x_model species normalize).1 =
      1 - cdf (test_chi2 ke cdf t x_data x_model species normalize).2.1
            (test_chi2 ke cdf t x_data x_model species normalize).2.2 := by
  refine ⟨rfl, ?_, rfl⟩
  rw [test_chi2]
  simp only [List.card_toFinset]
  rfl

namespace kinetic_estimation

/-- Modelled from the spec: `lhsclassic(samples, n)` from `dynamo.tools.utils`
(whose source is not part of this snapshot) generates a `samples × n` Latin
Hypercube design in the unit cube, one stratified random value per entry; the
random draw is abstracted as the oracle `rnd i j` giving the entry at row
`i`, column `j`. -/
def lhsclassic (rnd : ℕ → ℕ → ℝ) (samples n : ℕ) : List (List ℝ) :=
  (List.range samples).map (fun i => (List.range n).map (fun j => rnd i j))

/-- `sample_p0(samples, method)`: for `'lhs'`, generate the design and rescale
column `i` by `ret[:, i] * (ranges[i][1] - ranges[i][0]) + ranges[i][0]`;
otherwise draw every coordinate uniformly inside its bound (the random draw
again abstracted by the oracle). -/
noncomputable def sample_p0 (ke : kinetic_estimation) (rnd : ℕ → ℕ → ℝ)
    (samples : ℕ) (method : String) : List (List ℝ) :=
  if method = "lhs" then
    (lhsclassic rnd samples (n_params ke)).map
      (fun row => List.zipWith (fun v r => v * (r.2 - r.1) + r.1) row (ranges ke))
  else
    (List.range samples).map (fun i =>
      (List.range (n_params ke)).map (fun j =>
        rnd i j * (((ranges ke).getD j (0, 0)).2 - ((ranges ke).getD j (0, 0)).1)
          + ((ranges ke).getD j (0, 0)).1))

/-- `np.argmin(costs)`: index of the least entry, ties broken to the first. -/
noncomputable def argminIdx : List ℝ → ℕ
  | [] => 0
  | [_] => 0
  | x :: y :: ys =>
      if (y :: ys).getD (argminIdx (y :: ys)) 0 < x then argminIdx (y :: ys) + 1
      else 0

/-- The residual closure `lambda p: self.f_lsq(p, t, x_data_norm, method, normalize)`
passed to `least_squares`: the free vector `p` is assembled into kinetic
parameters and initial conditions, the (external) simulator `sim` produces
the trajectory for them over `t`, and `f_lsq` normalizes and differences it
against the data. -/
noncomputable def f_lsq_at (ke : kinetic_estimation)
    (sim : List ℝ → List ℝ → List ℝ → List (List (Option ℝ)))
    (t : List ℝ) (x_data_norm : List (List ℝ)) (normalize : Bool)
    (p : List ℝ) : List ℝ :=
  f_lsq (sim (ke.assemble_kin_params p) (ke.assemble_x0 p) t) x_data_norm normalize

/-- `fit_lsq` along the default path where the starting points are drawn by
the sampler: normalize the data, draw `n_p0` starts, run one `least_squares`
per start — the scipy solver is abstracted as the argument `ls`, taking the
residual function and a start and returning the optimum point and its cost —
and keep the first start of minimum cost (`np.argmin`). -/
noncomputable def fit_lsq (ke : kinetic_estimation)
    (ls : (List ℝ → List ℝ) → List ℝ → List ℝ × ℝ)
    (sim : List ℝ → List ℝ → List ℝ → List (List (Option ℝ)))
    (rnd : ℕ → ℕ → ℝ) (t : List ℝ) (x_data : List (List ℝ))
    (n_p0 : ℕ) (sample_method : String) (normalize : Bool) : List ℝ × ℝ :=
  let p0 := sample_p0 ke rnd n_p0 sample_method
  let f := f_lsq_at ke sim t (fit_lsq_x_data_norm x_data normalize) normalize
  let results := p0.map (fun q => ls f q)
  let costs := results.map (fun r => r.2)
  let i_min := argminIdx costs
  ((results.getD i_min ([], 0)).1, costs.getD i_min 0)

lemma argminIdx_replicate (c : ℝ) : ∀ n, argminIdx (List.replicate n c) = 0
  | 0 => rfl
  | 1 => rfl
  | n + 2 => by
      have ih := argminIdx_replicate c (n + 1)
      show argminIdx (List.replicate (n + 2) c) = 0
      rw [List.replicate_succ, List.replicate_succ]
      simp only [argminIdx]
      rw [← List.replicate_succ, ih]
      simp [List.replicate_succ, lt_irrefl]

end kinetic_estimation

open kinetic_estimation in
/-- C7: when every kinetic parameter and every initial condition is fixed
(`low == high` throughout), the free-parameter space has dimension zero:
`sample_p0` returns a `samples × 0` matrix (one empty row per requested
sample) under either sampling method, and `fit_lsq` — for any solver meeting
the documented `least_squares` contract that the returned point has the
dimension of the start and the returned cost is half the squared norm of the
residual there — returns the empty free-parameter vector together with the
cost of the single forced evaluation of the residual, with no error path. -/
theorem fit_lsq_all_fixed (ke : kinetic_estimation)
    (ls : (List ℝ → List ℝ) → List ℝ → List ℝ × ℝ)
    (sim : List ℝ → List ℝ → List ℝ → List (List (Option ℝ)))
    (rnd : ℕ → ℕ → ℝ) (t : List ℝ) (x_data : List (List ℝ))
    (n_p0 : ℕ) (sample_method : String) (normalize : Bool)
    (hall : ∀ r ∈ ke.param_ranges ++ ke.x0_ranges, r.1 = r.2)
    (hlen : ∀ f q, (ls f q).1.length = q.length)
    (hcost : ∀ f q, (ls f q).2 = 1 / 2 * dotList (f (ls f q).1) (f (ls f q).1))
    (hn : 1 ≤ n_p0) :
    (∀ method, sample_p0 ke rnd n_p0 method = List.replicate n_p0 []) ∧
    fit_lsq ke ls sim rnd t x_data n_p0 sample_method normalize =
      ([], 1 / 2 * dotList
        (f_lsq_at ke sim t (fit_lsq_x_data_norm x_data normalize) normalize [])
        (f_lsq_at ke sim t (fit_lsq_x_data_norm x_data normalize) normalize [])) := by
  have hfr : ∀ rs : List (ℝ × ℝ), (∀ r ∈ rs, r.1 = r.2) → freeRanges rs = [] := by
    intro rs h
    rw [freeRanges]
    exact List.filter_eq_nil_iff.mpr (fun a ha => by simp [h a ha])
  have hranges : ranges ke = [] := by
    rw [kinetic_estimation.ranges, hfr _ (fun r hr => hall r (List.mem_append_left _ hr)),
      hfr _ (fun r hr => hall r (List.mem_append_right _ hr))]
    rfl
  have hnp : n_params ke = 0 := by rw [n_params, hranges]; rfl

  have hsample : ∀ method, sample_p0 ke rnd n_p0 method = List.replicate n_p0 [] := by
    intro method
    by_cases hm : method = "lhs"
    · rw [sample_p0, if_pos hm]
      refine List.eq_replicate_iff.mpr ⟨by simp [lhsclassic], ?_⟩
      intro b hb
      obtain ⟨row, _, rfl⟩ := List.mem_map.mp hb
      rw [hranges]
      exact List.zipWith_nil _ _
    · rw [sample_p0, if_neg hm]
      refine List.eq_replicate_iff.mpr ⟨by simp, ?_⟩
      intro b hb
      obtain ⟨i, _, rfl⟩ := List.mem_map.mp hb
      rw [hnp]
      rfl
  refine ⟨hsample, ?_⟩
  cases n_p0 with
  | zero => exact absurd hn (by norm_num)
  | succ m =>
    have h1 : (ls (f_lsq_at ke sim t (fit_lsq_x_data_norm x_data normalize)
        normalize) []).1 = [] :=
      List.eq_nil_of_length_eq_zero (by rw [hlen]; rfl)
    have h2 : (ls (f_lsq_at ke sim t (fit_lsq_x_data_norm x_data normalize)
        normalize) []).2 =
        1 / 2 * dotList
          (f_lsq_at ke sim t (fit_lsq_x_data_norm x_data normalize) normalize [])
          (f_lsq_at ke sim t (fit_lsq_x_data_norm x_data normalize) normalize []) := by
      have h := hcost (f_lsq_at ke sim t (fit_lsq_x_data_norm x_data normalize)
        normalize) []
      rwa [h1] at h
    have hc := argminIdx_replicate
      ((ls (f_lsq_at ke sim t (fit_lsq_x_data_norm x_data normalize) normalize) []).2)
      (m + 1)
    rw [List.replicate_succ] at hc
    simp only [fit_lsq, hsample sample_method, List.replicate_succ, List.map_cons,
      List.map_replicate, hc, List.getD_cons_zero]
    rw [h1, h2]

open kinetic_estimation in
/-- Witness for C7 at a concrete all-fixed instance: kinetic range `[(1,1)]`,
initial-condition range `[(2,2)]`, a solver satisfying the scipy contract
literally, a one-point one-species simulator, a constant random oracle, one
starting point, LHS sampling, normalization on. -/
theorem fit_lsq_all_fixed_witness :
    (∀ r ∈ [((1 : ℝ), (1 : ℝ))] ++ [((2 : ℝ), (2 : ℝ))], r.1 = r.2) ∧ 1 ≤ 1 ∧
    ((∀ method, sample_p0 (kinetic_estimation.mk [(1, 1)] [(2, 2)])
        (fun _ _ => 0) 1 method = List.replicate 1 []) ∧
      fit_lsq (kinetic_estimation.mk [(1, 1)] [(2, 2)])
          (fun f q => (q, 1 / 2 * dotList (f q) (f q)))
          (fun _ _ _ => [[some 1]]) (fun _ _ => 0) [0] [[1]] 1 "lhs" true =
        ([], 1 / 2 * dotList
          (f_lsq_at (kinetic_estimation.mk [(1, 1)] [(2, 2)])
            (fun _ _ _ => [[some 1]]) [0] (fit_lsq_x_data_norm [[1]] true) true [])
          (f_lsq_at (kinetic_estimation.mk [(1, 1)] [(2, 2)])
            (fun _ _ _ => [[some 1]]) [0] (fit_lsq_x_data_norm [[1]] true) true []))) := by
  have hall : ∀ r ∈ [((1 : ℝ), (1 : ℝ))] ++ [((2 : ℝ), (2 : ℝ))], r.1 = r.2 := by
    intro r hr
    simp at hr
    rcases hr with rfl | rfl <;> norm_num
  exact ⟨hall, le_refl 1,
    fit_lsq_all_fixed (kinetic_estimation.mk [(1, 1)] [(2, 2)])
      (fun f q => (q, 1 / 2 * dotList (f q) (f q)))
      (fun _ _ _ => [[some 1]]) (fun _ _ => 0) [0] [[1]] 1 "lhs" true
      hall (fun _ _ => rfl) (fun _ _ => rfl) (le_refl 1)⟩
